import Mathlib

/-!
Verification of the PrimeNG knob component
(`src/packages/primeng/src/knob/knob.ts`).

The component is a circular dial: pure geometry maps between value space
`[min, max]`, angle space (radians) and points on a circle, while an
interaction controller owns the current value, clamps/steps it on keyboard
input and manages transient window listeners during a drag gesture.

JavaScript numbers are modelled as real numbers (`ℝ`); `Math.round` as
`⌊x + 1/2⌋` (round half toward +∞, as in JS); `Math.atan2 y x` as the
complex argument of `x + y·i`, which has range `(-π, π]` and sends `(0,0)`
to `0`, matching JS. Window listener registration is modelled by a small
allocator world: `renderer.listen` hands out a fresh handle and records it
as registered; invoking a handle removes it from the registry and logs the
release (a second invocation of the same handle is logged again but the
registry is unchanged, as with `removeEventListener`).
-/

open Real

namespace Knob

/-- The component's configuration inputs (knob.ts lines 112–142) together
with the `disabled()` flag inherited from the editable-holder base class. -/
structure Cfg where
  min : ℝ
  max : ℝ
  step : ℝ
  size : ℝ
  disabled : Bool
  readonly : Bool

noncomputable section

/-- line 150: `radius: number = 40`. -/
def radius : ℝ := 40

/-- line 152: `midX: number = 50`. -/
def midX : ℝ := 50

/-- line 154: `midY: number = 50`. -/
def midY : ℝ := 50

/-- line 156: `minRadians = 4π/3`. -/
def minRadians : ℝ := 4 * π / 3

/-- line 158: `maxRadians = -π/3`. -/
def maxRadians : ℝ := -π / 3

/-- line 190: the local `start = -π/2 - π/6` passed to `updateModel`. -/
def start : ℝ := -π / 2 - π / 6

/-- `mapRange` (lines 176–178): linear interpolation from
`[inMin, inMax]` to `[outMin, outMax]`. -/
def mapRange (x inMin inMax outMin outMax : ℝ) : ℝ :=
  ((x - inMin) * (outMax - outMin)) / (inMax - inMin) + outMin

/-- JS `Math.round`: round half toward positive infinity. -/
def jsRound (x : ℝ) : ℝ := ((⌊x + 1 / 2⌋ : ℤ) : ℝ)

/-- The three-way angle decision inside `updateModel` (lines 196–198):
upper segment, lower segment unwrapped by `+2π`, or the dead gap
(`none`, the early `return`). -/
def valueFromAngle (cfg : Cfg) (angle st : ℝ) : Option ℝ :=
  if angle > maxRadians then
    some (mapRange angle minRadians maxRadians cfg.min cfg.max)
  else if angle < st then
    some (mapRange (angle + 2 * π) minRadians maxRadians cfg.min cfg.max)
  else
    none

/-- Line 200: snap a mapped value to the step grid anchored at `min`. -/
def roundToStep (cfg : Cfg) (mappedValue : ℝ) : ℝ :=
  jsRound ((mappedValue - cfg.min) / cfg.step) * cfg.step + cfg.min

/-- `updateModel` (lines 194–205), value view: the committed value, or
`none` when the angle falls in the dead gap and the method returns early. -/
def updateModel (cfg : Cfg) (angle st : ℝ) : Option ℝ :=
  (valueFromAngle cfg angle st).map (roundToStep cfg)

/-- JS `Math.atan2 y x`, modelled as the argument of the complex number
`x + y·i`: range `(-π, π]`, and `atan2 0 0 = 0` as in JS. -/
def atan2 (y x : ℝ) : ℝ := Complex.arg (x + y * Complex.I)

/-- `updateValue` (lines 186–192), value view: offsets relative to the
control's box are turned into an angle and fed to `updateModel`. -/
def updateValue (cfg : Cfg) (offsetX offsetY : ℝ) : Option ℝ :=
  let dx := offsetX - cfg.size / 2
  let dy := cfg.size / 2 - offsetY
  let angle := atan2 dy dx
  updateModel cfg angle start

/-- Clamping done by `updateModelValue` (lines 274–276). -/
def clampValue (cfg : Cfg) (newValue : ℝ) : ℝ :=
  if newValue > cfg.max then cfg.max
  else if newValue < cfg.min then cfg.min
  else newValue

/-- `_value` getter (lines 405–407): the stored value when it is not
`null`/`undefined`, else `min`. -/
def _value (cfg : Cfg) (v : Option ℝ) : ℝ := v.getD cfg.min

/-- line 160: `value: number = 0` — the field's initializer. -/
def initialValue : ℝ := 0

/-- `valueRadians` (lines 357–359). -/
def valueRadians (cfg : Cfg) (v : Option ℝ) : ℝ :=
  mapRange (_value cfg v) cfg.min cfg.max minRadians maxRadians

/-- The point-of-angle computation shared by `valueX`/`valueY`,
`minX`/`minY` etc. (lines 361–391): screen coordinates on the circle of
radius 40 around (50, 50), with Y flipped. -/
def pointOnCircle (θ : ℝ) : ℝ × ℝ :=
  (midX + Real.cos θ * radius, midY - Real.sin θ * radius)

/-- The offset-to-angle computation of `updateValue` (lines 187–189) as a
standalone map: `dx = offsetX - size/2`, `dy = size/2 - offsetY`,
`atan2 dy dx`. -/
def angleFromPoint (offsetX offsetY sz : ℝ) : ℝ :=
  atan2 (sz / 2 - offsetY) (offsetX - sz / 2)

end

/-- The four nullable window-listener handle fields (lines 162–168),
modelled as optional handle identifiers. -/
structure Handles where
  windowMouseMoveListener : Option Nat
  windowMouseUpListener : Option Nat
  windowTouchMoveListener : Option Nat
  windowTouchEndListener : Option Nat
deriving DecidableEq

/-- The mutable component state the claims touch: the stored `value`
(`Option` because `writeValue(value: any)` may store `null`/`undefined`),
the model value recorded through `writeModelValue`, and the listener
handles. -/
structure KnobState where
  value : Option ℝ
  modelValue : Option ℝ
  handles : Handles

/-- Synchronous observable effects of one operation: arguments of
`onModelChange(...)` calls, values emitted through `onChange.emit(...)`,
and whether `cd.markForCheck()` (a re-render request) was issued. -/
structure Emits where
  modelChange : List ℝ
  changeEmits : List ℝ
  markedForCheck : Bool

/-- Modelled from the spec: `writeModelValue` comes from the
`BaseEditableHolder` base class (`primeng/baseeditableholder`), which is
not among the sources under verification. The spec describes the write
path as form-state bookkeeping that emits no change notification, so it
is modelled as recording the written value and nothing else. -/
def writeModelValue (s : KnobState) (v : Option ℝ) : KnobState :=
  { s with modelValue := v }

/-- `updateModelValue` (lines 273–281): clamp to `[min, max]`, store,
record through `writeModelValue`, then notify `onModelChange` and
`onChange` once each with the new value. -/
noncomputable def updateModelValue (cfg : Cfg) (s : KnobState) (newValue : ℝ) :
    KnobState × Emits :=
  let v := clampValue cfg newValue
  (writeModelValue { s with value := some v } (some v), ⟨[v], [v], false⟩)

/-- `updateModel` (lines 194–205) as a state transformer: on a dead-gap
angle the early `return` leaves the state untouched and emits nothing;
otherwise the step-rounded value is stored and notified once. -/
noncomputable def updateModelRun (cfg : Cfg) (s : KnobState) (angle st : ℝ) :
    KnobState × Emits :=
  match valueFromAngle cfg angle st with
  | none => (s, ⟨[], [], false⟩)
  | some mappedValue =>
      let newValue := roundToStep cfg mappedValue
      (writeModelValue { s with value := some newValue } (some newValue),
        ⟨[newValue], [newValue], false⟩)

/-- `onKeyDown` (lines 283–328): dispatch on `event.code`; `ArrowRight`
falls through to `ArrowUp` and `ArrowLeft` to `ArrowDown` in the source's
`switch`. Deltas are the literals `1` and `10` applied to `_value`. -/
noncomputable def onKeyDown (cfg : Cfg) (s : KnobState) (code : String) :
    KnobState × Emits :=
  if !cfg.disabled && !cfg.readonly then
    if code = "ArrowRight" ∨ code = "ArrowUp" then
      updateModelValue cfg s (_value cfg s.value + 1)
    else if code = "ArrowLeft" ∨ code = "ArrowDown" then
      updateModelValue cfg s (_value cfg s.value - 1)
    else if code = "Home" then
      updateModelValue cfg s cfg.min
    else if code = "End" then
      updateModelValue cfg s cfg.max
    else if code = "PageUp" then
      updateModelValue cfg s (_value cfg s.value + 10)
    else if code = "PageDown" then
      updateModelValue cfg s (_value cfg s.value - 10)
    else (s, ⟨[], [], false⟩)
  else (s, ⟨[], [], false⟩)

/-- `writeValue` (lines 330–334): store the externally supplied value,
record it through `writeModelValue`, request a re-render via
`cd.markForCheck()`; no `onModelChange` call, no `onChange` emission. -/
def writeValue (s : KnobState) (v : Option ℝ) : KnobState × Emits :=
  (writeModelValue { s with value := v } v, ⟨[], [], true⟩)

/-- The window-listener world: `renderer.listen` allocates a fresh handle
identifier and appends it to the registry of attached listeners. -/
structure World where
  nextId : Nat
  registered : List Nat
  releases : List Nat
deriving DecidableEq

/-- `renderer.listen(window, ..., handler)`: returns the unlisten handle
and registers the listener. -/
def listen (w : World) : Nat × World :=
  (w.nextId, ⟨w.nextId + 1, w.registered ++ [w.nextId], w.releases⟩)

/-- Invoking an unlisten handle: the listener is removed from the registry
(removing an already-removed one is a no-op there) and the invocation is
logged in `releases`. -/
def callUnlisten (w : World) (h : Nat) : World :=
  ⟨w.nextId, w.registered.erase h, w.releases ++ [h]⟩

/-- `onMouseDown` (lines 207–214): unless disabled/readonly, register a
window `mousemove` and a window `mouseup` listener and store both
handles. There is no guard against an already-active gesture. -/
def onMouseDown (cfg : Cfg) (hs : Handles) (w : World) : Handles × World :=
  if !cfg.disabled && !cfg.readonly then
    let (m, w1) := listen w
    let (u, w2) := listen w1
    ({ hs with windowMouseMoveListener := some m, windowMouseUpListener := some u }, w2)
  else (hs, w)

/-- `onMouseUp` (lines 216–229), translated branch by branch: if the move
handle is set, invoke it and null the `windowMouseUpListener` field (sic,
lines 218–221); then, if the (possibly just nulled) up handle is set,
invoke it and null the `windowMouseMoveListener` field (lines 223–226). -/
def onMouseUp (cfg : Cfg) (hs : Handles) (w : World) : Handles × World :=
  if !cfg.disabled && !cfg.readonly then
    let (hs1, w1) :=
      match hs.windowMouseMoveListener with
      | some h => ({ hs with windowMouseUpListener := none }, callUnlisten w h)
      | none => (hs, w)
    match hs1.windowMouseUpListener with
    | some h => ({ hs1 with windowMouseMoveListener := none }, callUnlisten w1 h)
    | none => (hs1, w1)
  else (hs, w)

/-- JS `String.replace` with a string pattern: only the first occurrence
is replaced. Modelled over character lists; `$`-substitution patterns in
the replacement do not arise because the replacement here is a number's
string form. On an empty subject an empty pattern still matches once, as
in JS. -/
def listReplaceFirst (pat rep : List Char) : List Char → List Char
  | [] => if pat = [] then rep else []
  | c :: rest =>
      if pat <+: (c :: rest) then rep ++ (c :: rest).drop pat.length
      else c :: listReplaceFirst pat rep rest

/-- The literal token `{value}` searched for by `valueToDisplay`. -/
def valueToken : List Char := "\x7bvalue\x7d".toList

/-- `valueToDisplay` (lines 401–403) over character lists, with the
current value's string form (`this._value.toString()`) supplied as
`valueStr`. -/
def valueToDisplay (valueTemplate : List Char) (valueStr : List Char) : List Char :=
  listReplaceFirst valueToken valueStr valueTemplate

/-- A non-disabled, non-readonly configuration with the component's
default inputs: `min = 0`, `max = 100`, `step = 1`, `size = 100`. -/
noncomputable def enabledCfg : Cfg := ⟨0, 100, 1, 100, false, false⟩

/-- Handle fields at construction: all four listener fields empty. -/
def hs0 : Handles := ⟨none, none, none, none⟩

/-- Listener world before any registration. -/
def w0 : World := ⟨0, [], []⟩

/-! ### Helper lemmas for the `String.replace` model -/

lemma listReplaceFirst_cons_pos {pat : List Char} (rep : List Char) {c : Char}
    {rest : List Char} (h : pat <+: (c :: rest)) :
    listReplaceFirst pat rep (c :: rest) = rep ++ (c :: rest).drop pat.length := by
  simp [listReplaceFirst, h]

lemma listReplaceFirst_cons_neg {pat : List Char} (rep : List Char) {c : Char}
    {rest : List Char} (h : ¬ pat <+: (c :: rest)) :
    listReplaceFirst pat rep (c :: rest) = c :: listReplaceFirst pat rep rest := by
  simp [listReplaceFirst, h]

lemma listReplaceFirst_of_not_infix (pat rep : List Char) :
    ∀ s : List Char, ¬ pat <:+: s → listReplaceFirst pat rep s = s := by
  intro s
  induction s with
  | nil =>
      intro h
      have hpat : pat ≠ [] := by
        intro he
        exact h (he ▸ List.nil_infix)
      simp [listReplaceFirst, hpat]
  | cons c rest ih =>
      intro h
      have hpre : ¬ pat <+: (c :: rest) := fun hp => h hp.isInfix
      have hrest : ¬ pat <:+: rest := fun hi => h (List.infix_cons_iff.mpr (Or.inr hi))
      rw [listReplaceFirst_cons_neg rep hpre, ih hrest]

lemma listReplaceFirst_first_occurrence (pat rep : List Char) :
    ∀ a b : List Char,
      (∀ i, i < a.length → ¬ pat <+: (a ++ pat ++ b).drop i) →
      listReplaceFirst pat rep (a ++ pat ++ b) = a ++ rep ++ b := by
  intro a
  induction a with
  | nil =>
      intro b _
      simp only [List.nil_append]
      cases hp : pat with
      | nil =>
          cases b with
          | nil => simp [listReplaceFirst]
          | cons c rest => simp [listReplaceFirst]
      | cons p pt =>
          subst hp
          rw [List.cons_append,
            listReplaceFirst_cons_pos rep (by rw [← List.cons_append]; exact List.prefix_append _ _)]
          congr 1
          rw [List.length_cons, List.drop_succ_cons, List.drop_left]
  | cons c a' ih =>
      intro b h
      have h0 : ¬ pat <+: (c :: (a' ++ pat ++ b)) := by
        have := h 0 (by simp)
        simpa using this
      show listReplaceFirst pat rep (c :: (a' ++ pat ++ b)) = c :: (a' ++ rep ++ b)
      rw [listReplaceFirst_cons_neg rep h0, ih b]
      intro i hi
      have := h (i + 1) (by simpa using Nat.succ_lt_succ hi)
      simpa using this

/-! ### Claim theorems -/

/-- C1: refutation of the gesture-lifecycle claim, exhibiting the bug.
After `onMouseDown` exactly two window listeners are registered (that
part holds), but after the matching `onMouseUp` the window `mouseup`
listener (handle 1) is still registered — `onMouseUp` invokes the move
unlisten handle and then nulls `windowMouseUpListener` instead of
`windowMouseMoveListener` (knob.ts lines 218–221), so the second branch
never runs. A second `onMouseUp` then finds the move handle still set and
invokes the same unlisten function a second time (releases log `[0, 0]`),
contradicting the no-double-release part of the claim. The parallel
`onTouchEnd` (lines 240–252) nulls the matching fields, showing the
intent. -/
theorem mouse_gesture_lifecycle_bug :
    (onMouseDown enabledCfg hs0 w0).2.registered.length = 2 ∧
    (onMouseUp enabledCfg (onMouseDown enabledCfg hs0 w0).1
        (onMouseDown enabledCfg hs0 w0).2).2.registered = [1] ∧
    (onMouseUp enabledCfg
        (onMouseUp enabledCfg (onMouseDown enabledCfg hs0 w0).1
          (onMouseDown enabledCfg hs0 w0).2).1
        (onMouseUp enabledCfg (onMouseDown enabledCfg hs0 w0).1
          (onMouseDown enabledCfg hs0 w0).2).2).2.releases = [0, 0] := by
  refine ⟨?_, ?_, ?_⟩ <;> rfl

/-- C2 counterexample: a second `onMouseDown` while a mouse gesture is
already active is not ignored. Starting from the post-`onMouseDown`
state (handles `some 0` / `some 1`, registry `[0, 1]`), a further
`onMouseDown` leaves four listeners registered and overwrites both
handles, contradicting "no additional listeners are registered and the
existing listener handles are unchanged". -/
theorem second_mousedown_not_ignored :
    (onMouseDown enabledCfg (onMouseDown enabledCfg hs0 w0).1
        (onMouseDown enabledCfg hs0 w0).2).2.registered = [0, 1, 2, 3] ∧
    (onMouseDown enabledCfg (onMouseDown enabledCfg hs0 w0).1
        (onMouseDown enabledCfg hs0 w0).2).1.windowMouseMoveListener = some 2 ∧
    (onMouseDown enabledCfg hs0 w0).1.windowMouseMoveListener = some 0 := by
  refine ⟨?_, ?_, ?_⟩ <;> rfl

/-- C2 (amended): every `onMouseDown` on a non-disabled, non-readonly
control — including one received while a gesture is already active —
registers two further window listeners and overwrites both stored
handles with the fresh ones; nothing is released. -/
theorem mousedown_always_registers (cfg : Cfg) (hs : Handles) (w : World)
    (hd : cfg.disabled = false) (hr : cfg.readonly = false) :
    (onMouseDown cfg hs w).2.registered = w.registered ++ [w.nextId, w.nextId + 1] ∧
    (onMouseDown cfg hs w).1.windowMouseMoveListener = some w.nextId ∧
    (onMouseDown cfg hs w).1.windowMouseUpListener = some (w.nextId + 1) ∧
    (onMouseDown cfg hs w).2.releases = w.releases := by
  simp [onMouseDown, listen, hd, hr]

/-- Witness for `mousedown_always_registers` at the default enabled
configuration and the freshly constructed state. -/
theorem mousedown_always_registers_witness :
    (onMouseDown enabledCfg hs0 w0).2.registered = w0.registered ++ [w0.nextId, w0.nextId + 1] ∧
    (onMouseDown enabledCfg hs0 w0).1.windowMouseMoveListener = some w0.nextId ∧
    (onMouseDown enabledCfg hs0 w0).1.windowMouseUpListener = some (w0.nextId + 1) ∧
    (onMouseDown enabledCfg hs0 w0).2.releases = w0.releases :=
  mousedown_always_registers enabledCfg hs0 w0 rfl rfl

/-- A configuration whose minimum is 5, used to separate the field
initializer `value = 0` from `min`. -/
noncomputable def cfgMin5 : Cfg := ⟨5, 100, 1, 100, false, false⟩

/-- C8 counterexample: the `value` field is initialized to the literal
`0` (line 160), not to `min`; with `min = 5` the effective value right
after initialization is `0 ≠ min`, refuting "the value created at
control initialization defaults to min". -/
theorem initial_value_not_min :
    _value cfgMin5 (some initialValue) ≠ cfgMin5.min := by
  simp only [_value, initialValue, cfgMin5, Option.getD_some]
  norm_num

/-- C8 (amended): the `_value` getter substitutes `min` exactly when the
stored value is `null`/`undefined` and is the stored number otherwise, so
computation never sees `null`; but the field initializer is the literal
`0`, so at initialization the effective value is `0` (equal to `min` only
when `min = 0`), not `min` in general. -/
theorem effective_value_total :
    (∀ cfg : Cfg, _value cfg none = cfg.min) ∧
    (∀ (cfg : Cfg) (v : ℝ), _value cfg (some v) = v) ∧
    initialValue = 0 :=
  ⟨fun _ => rfl, fun _ _ => rfl, rfl⟩

/-- C9: `writeValue` stores the supplied value, records it through the
(spec-modelled) `writeModelValue` bookkeeping, requests a re-render via
`cd.markForCheck()`, calls no registered model-change callback, emits no
`onChange` event, and leaves the listener handles untouched. -/
theorem writeValue_silent (s : KnobState) (v : Option ℝ) :
    writeValue s v = (⟨v, v, s.handles⟩, ⟨[], [], true⟩) :=
  rfl

/-- C10: `valueToDisplay` replaces only the first occurrence of the
literal token `{value}`: a template with no occurrence is returned
unchanged, and in a template `a ++ {value} ++ b` whose first occurrence
is the displayed one (no occurrence starts inside `a`), everything after
it — including further `{value}` tokens in `b` — is kept verbatim. -/
theorem valueToDisplay_first_occurrence :
    (∀ t r : List Char, ¬ valueToken <:+: t → valueToDisplay t r = t) ∧
    (∀ a b r : List Char,
      (∀ i, i < a.length → ¬ valueToken <+: (a ++ valueToken ++ b).drop i) →
      valueToDisplay (a ++ valueToken ++ b) r = a ++ r ++ b) :=
  ⟨fun t r h => listReplaceFirst_of_not_infix valueToken r t h,
   fun a b r h => listReplaceFirst_first_occurrence valueToken r a b h⟩

/-- Witness for `valueToDisplay_first_occurrence`: the template
`"abc"` (no token) is unchanged, and in
`"Val: {value} and {value}"` only the first token is replaced by `42`
while the second is kept verbatim. -/
theorem valueToDisplay_first_occurrence_witness :
    valueToDisplay "abc".toList "42".toList = "abc".toList ∧
    valueToDisplay ("Val: ".toList ++ valueToken ++ " and \x7bvalue\x7d".toList)
        "42".toList
      = "Val: ".toList ++ "42".toList ++ " and \x7bvalue\x7d".toList :=
  ⟨valueToDisplay_first_occurrence.1 "abc".toList "42".toList (by decide),
   valueToDisplay_first_occurrence.2 "Val: ".toList " and \x7bvalue\x7d".toList
     "42".toList (by decide)⟩

/-- Component state right after construction: the `value` field holds its
initializer `0`, nothing was written through `writeModelValue`, no
listeners are attached. -/
noncomputable def st0 : KnobState := ⟨some initialValue, none, hs0⟩

lemma updateModelValue_value (cfg : Cfg) (s : KnobState) (x : ℝ) :
    (updateModelValue cfg s x).1.value = some (clampValue cfg x) :=
  rfl

/-- C5: for every angle strictly inside the dead-gap sector — strictly
between `start = -π/2 - π/6` and `maxRadians = -π/3` — the angle-to-value
decision produces no value and `updateModel` is a complete no-op: the
state is unchanged and neither `onModelChange` nor `onChange` fires. -/
theorem dead_gap_noop (cfg : Cfg) (s : KnobState) (angle : ℝ)
    (h1 : start < angle) (h2 : angle < maxRadians) :
    updateModel cfg angle start = none ∧
    updateModelRun cfg s angle start = (s, ⟨[], [], false⟩) := by
  have hA : ¬ angle > maxRadians := not_lt.mpr h2.le
  have hB : ¬ angle < start := not_lt.mpr h1.le
  constructor
  · simp [updateModel, valueFromAngle, hA, hB]
  · simp [updateModelRun, valueFromAngle, hA, hB]

/-- Witness for `dead_gap_noop` at the angle `-π/2` (straight down), which
lies strictly inside the 60° gap. -/
theorem dead_gap_noop_witness :
    updateModel enabledCfg (-π / 2) start = none ∧
    updateModelRun enabledCfg st0 (-π / 2) start = (st0, ⟨[], [], false⟩) :=
  dead_gap_noop enabledCfg st0 (-π / 2)
    (by simp only [start]; linarith [pi_pos])
    (by simp only [maxRadians]; linarith [pi_pos])

/-- C6: keyboard behaviour on a non-disabled, non-readonly control with
`min < max`: `ArrowUp` from `min` yields `min + 1` clamped at `max`;
`Home` from any stored value yields exactly `min`; `End` yields exactly
`max`; `PageDown` from `min` stays at `min`; `PageUp`/`PageDown` from any
in-range value add/subtract the literal `10` and then clamp. -/
theorem keyboard_steps (cfg : Cfg) (hd : cfg.disabled = false)
    (hr : cfg.readonly = false) (hm : cfg.min < cfg.max) (s : KnobState) :
    (s.value = some cfg.min →
      (onKeyDown cfg s "ArrowUp").1.value
          = some (if cfg.min + 1 > cfg.max then cfg.max else cfg.min + 1) ∧
      (onKeyDown cfg s "PageDown").1.value = some cfg.min) ∧
    (onKeyDown cfg s "Home").1.value = some cfg.min ∧
    (onKeyDown cfg s "End").1.value = some cfg.max ∧
    (∀ v : ℝ, s.value = some v → cfg.min ≤ v → v ≤ cfg.max →
      (onKeyDown cfg s "PageUp").1.value
          = some (if v + 10 > cfg.max then cfg.max else v + 10) ∧
      (onKeyDown cfg s "PageDown").1.value
          = some (if v - 10 < cfg.min then cfg.min else v - 10)) := by
  refine ⟨fun hv => ⟨?_, ?_⟩, ?_, ?_, fun v hv hlo hhi => ⟨?_, ?_⟩⟩
  · simp [onKeyDown, hd, hr, updateModelValue_value, hv, _value, clampValue]
    (try split_ifs) <;> intros <;> first | rfl | linarith
  · simp [onKeyDown, hd, hr, updateModelValue_value, hv, _value, clampValue]
    (try split_ifs) <;> intros <;> first | rfl | linarith
  · simp [onKeyDown, hd, hr, updateModelValue_value, clampValue]
    (try split_ifs) <;> intros <;> first | rfl | linarith
  · simp [onKeyDown, hd, hr, updateModelValue_value, clampValue]
    (try split_ifs) <;> intros <;> first | rfl | linarith
  · simp [onKeyDown, hd, hr, updateModelValue_value, hv, _value, clampValue]
    (try split_ifs) <;> intros <;> first | rfl | linarith
  · simp [onKeyDown, hd, hr, updateModelValue_value, hv, _value, clampValue]
    (try split_ifs) <;> intros <;> first | rfl | linarith

/-- Witness for `keyboard_steps` at the default configuration
(`min = 0`, `max = 100`) starting from the freshly constructed state
(stored value `0 = min`). -/
theorem keyboard_steps_witness :
    (onKeyDown enabledCfg st0 "ArrowUp").1.value = some 1 ∧
    (onKeyDown enabledCfg st0 "Home").1.value = some 0 ∧
    (onKeyDown enabledCfg st0 "End").1.value = some 100 ∧
    (onKeyDown enabledCfg st0 "PageDown").1.value = some 0 := by
  have h := keyboard_steps enabledCfg rfl rfl
    (by simp only [enabledCfg]; norm_num) st0
  have hv : st0.value = some enabledCfg.min := rfl
  refine ⟨?_, ?_, ?_, ?_⟩
  · have := (h.1 hv).1
    rw [this]
    simp only [enabledCfg]
    norm_num
  · exact h.2.1
  · exact h.2.2.1
  · exact (h.1 hv).2

lemma mapRange_zero_to_eighty :
    mapRange 0 minRadians maxRadians 0 100 = 80 := by
  have hden : (-π / 3 - 4 * π / 3 : ℝ) ≠ 0 := by
    have := pi_pos; intro h; nlinarith
  unfold mapRange minRadians maxRadians
  rw [add_zero, div_eq_iff hden]
  ring

lemma updateModel_center : updateModel enabledCfg 0 start = some 80 := by
  have hA : (0 : ℝ) > maxRadians := by
    simp only [maxRadians]; linarith [pi_pos]
  have hmap : mapRange 0 minRadians maxRadians enabledCfg.min enabledCfg.max = 80 := by
    simpa only [enabledCfg] using mapRange_zero_to_eighty
  have hfl : ⌊(80 : ℝ) + 1 / 2⌋ = (80 : ℤ) := by
    rw [Int.floor_eq_iff]
    norm_num
  have hround : roundToStep enabledCfg 80 = 80 := by
    unfold roundToStep jsRound
    simp only [enabledCfg]
    norm_num [hfl]
  simp [updateModel, valueFromAngle, if_pos hA, hmap, hround]

/-- C7: with the default configuration (`min = 0`, `max = 100`,
`step = 1`, `size = 100`), a click at the control center `(50, 50)` gives
`angle = atan2 0 0 = 0`, taken by the upper-segment branch, and the
committed value is exactly `mapRange(0, 4π/3, -π/3, 0, 100) = 80` — the
`π` factors cancel to an exact rational. -/
theorem center_click_value :
    updateValue enabledCfg 50 50 = some 80 ∧
    mapRange 0 minRadians maxRadians 0 100 = 80 := by
  constructor
  · have hdx : (50 : ℝ) - enabledCfg.size / 2 = 0 := by
      simp only [enabledCfg]; norm_num
    have hdy : enabledCfg.size / 2 - (50 : ℝ) = 0 := by
      simp only [enabledCfg]; norm_num
    have hangle : atan2 (enabledCfg.size / 2 - 50) (50 - enabledCfg.size / 2) = 0 := by
      rw [hdx, hdy]
      simp [atan2]
    simpa only [updateValue, hangle] using updateModel_center
  · exact mapRange_zero_to_eighty

/-! ### Range of the angle-to-value mapping and of step rounding -/

lemma mapRange_angle_between (cfg : Cfg) (hm : cfg.min < cfg.max) {θ : ℝ}
    (h1 : maxRadians < θ) (h2 : θ < minRadians) :
    cfg.min < mapRange θ minRadians maxRadians cfg.min cfg.max ∧
    mapRange θ minRadians maxRadians cfg.min cfg.max < cfg.max := by
  have hπ := pi_pos
  have hd : (0 : ℝ) < cfg.max - cfg.min := by linarith
  have hc : maxRadians - minRadians < 0 := by
    simp only [maxRadians, minRadians]; linarith
  have hcne : maxRadians - minRadians ≠ 0 := ne_of_lt hc
  set q : ℝ := ((θ - minRadians) * (cfg.max - cfg.min)) / (maxRadians - minRadians)
    with hq
  have hqc : q * (maxRadians - minRadians) = (θ - minRadians) * (cfg.max - cfg.min) :=
    div_mul_cancel₀ _ hcne
  have hmapped : mapRange θ minRadians maxRadians cfg.min cfg.max = q + cfg.min := rfl
  have hq0 : 0 < q := by nlinarith [hqc, mul_neg_of_neg_of_pos (show θ - minRadians < 0 by linarith) hd]
  have hq1 : q < cfg.max - cfg.min := by nlinarith [hqc]
  constructor
  · rw [hmapped]; linarith
  · rw [hmapped]; linarith

lemma roundToStep_bounds (cfg : Cfg) (hstep : 0 < cfg.step) {m : ℝ}
    (h1 : cfg.min < m) (h2 : m < cfg.max) :
    cfg.min ≤ roundToStep cfg m ∧ roundToStep cfg m < cfg.max + cfg.step / 2 := by
  unfold roundToStep jsRound
  set x : ℝ := (m - cfg.min) / cfg.step with hxdef
  have hx0 : 0 < x := div_pos (by linarith) hstep
  have hxs : x * cfg.step = m - cfg.min := div_mul_cancel₀ _ hstep.ne'
  have hfl_le : ((⌊x + 1 / 2⌋ : ℤ) : ℝ) ≤ x + 1 / 2 := Int.floor_le _
  have hfl_ge : (0 : ℤ) ≤ ⌊x + 1 / 2⌋ := Int.floor_nonneg.mpr (by linarith)
  have hfl_ge' : (0 : ℝ) ≤ ((⌊x + 1 / 2⌋ : ℤ) : ℝ) := by exact_mod_cast hfl_ge
  constructor
  · nlinarith [mul_nonneg hfl_ge' hstep.le]
  · nlinarith [mul_le_mul_of_nonneg_right hfl_le hstep.le]

lemma roundToStep_close (cfg : Cfg) (hstep : 0 < cfg.step) (v : ℝ) :
    |roundToStep cfg v - v| ≤ cfg.step / 2 := by
  unfold roundToStep jsRound
  set x : ℝ := (v - cfg.min) / cfg.step with hxdef
  have hxs : x * cfg.step = v - cfg.min := div_mul_cancel₀ _ hstep.ne'
  have hfl_le : ((⌊x + 1 / 2⌋ : ℤ) : ℝ) ≤ x + 1 / 2 := Int.floor_le _
  have hfl_gt : x - 1 / 2 < ((⌊x + 1 / 2⌋ : ℤ) : ℝ) := by
    have := Int.lt_floor_add_one (x + 1 / 2)
    linarith
  rw [abs_le]
  constructor
  · nlinarith [mul_le_mul_of_nonneg_right hfl_gt.le hstep.le]
  · nlinarith [mul_le_mul_of_nonneg_right hfl_le hstep.le]

/-- C3 (amended): the keyboard path `updateModelValue` always clamps, so
its stored value satisfies `min ≤ value ≤ max`; the angle path
`updateModel` does not clamp — for any angle produced by `atan2`
(range `(-π, π]`) the committed value satisfies only
`min ≤ value < max + step/2`, the step rounding being free to overshoot
`max` by less than half a step. -/
theorem update_value_bounds (cfg : Cfg) (hm : cfg.min < cfg.max)
    (hstep : 0 < cfg.step) :
    (∀ (s : KnobState) (x : ℝ),
        (updateModelValue cfg s x).1.value = some (clampValue cfg x) ∧
        cfg.min ≤ clampValue cfg x ∧ clampValue cfg x ≤ cfg.max) ∧
    (∀ angle v : ℝ, -π < angle → angle ≤ π →
        updateModel cfg angle start = some v →
        cfg.min ≤ v ∧ v < cfg.max + cfg.step / 2) := by
  have hπ := pi_pos
  constructor
  · intro s x
    refine ⟨updateModelValue_value cfg s x, ?_, ?_⟩ <;>
      · unfold clampValue
        split_ifs <;> linarith
  · intro angle v hlo hhi hv
    simp only [updateModel, valueFromAngle] at hv
    split_ifs at hv with hA hB
    · simp only [Option.map] at hv
      rw [Option.some.injEq] at hv
      have hmr := mapRange_angle_between cfg hm hA
        (by simp only [minRadians]; linarith)
      exact hv ▸ roundToStep_bounds cfg hstep hmr.1 hmr.2
    · simp only [Option.map] at hv
      rw [Option.some.injEq] at hv
      have hB' : angle < -π / 2 - π / 6 := by simpa only [start] using hB
      have hmr := mapRange_angle_between cfg hm
        (show maxRadians < angle + 2 * π by simp only [maxRadians]; linarith)
        (show angle + 2 * π < minRadians by simp only [minRadians]; linarith)
      exact hv ▸ roundToStep_bounds cfg hstep hmr.1 hmr.2
    · simp at hv

/-- Witness for `update_value_bounds` at the default configuration: the
keyboard part at the initial state with input `150`, and the angle part at
the center-click angle `0`, whose committed value is `80`. -/
theorem update_value_bounds_witness :
    ((updateModelValue enabledCfg st0 150).1.value = some (clampValue enabledCfg 150) ∧
      enabledCfg.min ≤ clampValue enabledCfg 150 ∧
      clampValue enabledCfg 150 ≤ enabledCfg.max) ∧
    (enabledCfg.min ≤ 80 ∧ (80 : ℝ) < enabledCfg.max + enabledCfg.step / 2) := by
  have h := update_value_bounds enabledCfg
    (by simp only [enabledCfg]; norm_num) (by simp only [enabledCfg]; norm_num)
  exact ⟨h.1 st0 150,
    h.2 0 80 (by linarith [pi_pos]) (by linarith [pi_pos]) updateModel_center⟩

/-- Default configuration except `step = 60`, used to exhibit step-rounding
overshoot in the unclamped angle path. -/
noncomputable def cfgStep60 : Cfg := ⟨0, 100, 60, 100, false, false⟩

/-- C3 counterexample: with `min = 0`, `max = 100`, `step = 60`, the angle
`-π/4` (inside the upper segment, mapping to the raw value `95`) commits
`round(95/60)·60 = 120 > max` — the angle path performs no clamping, so
`min ≤ value ≤ max` fails after this update. -/
theorem angle_path_exceeds_max :
    updateModel cfgStep60 (-π / 4) start = some 120 ∧
    ¬ (120 : ℝ) ≤ cfgStep60.max := by
  have hπ := pi_pos
  have hA : -π / 4 > maxRadians := by simp only [maxRadians]; linarith
  have hden : (-π / 3 - 4 * π / 3 : ℝ) ≠ 0 := by intro h; nlinarith
  have hmap : mapRange (-π / 4) minRadians maxRadians cfgStep60.min cfgStep60.max
      = 95 := by
    simp only [cfgStep60, mapRange, minRadians, maxRadians]
    rw [div_add' _ _ _ hden, div_eq_iff hden]
    ring
  have hfl : ⌊(95 : ℝ) / 60 + 1 / 2⌋ = (2 : ℤ) := by
    rw [Int.floor_eq_iff]
    norm_num
  have hround : roundToStep cfgStep60 95 = 120 := by
    unfold roundToStep jsRound
    simp only [cfgStep60]
    norm_num [hfl]
  constructor
  · simp [updateModel, valueFromAngle, if_pos hA, hmap, hround]
  · simp only [cfgStep60]; norm_num

/-! ### Round trip: value → angle → circle point → angle → value -/

lemma mapRange_inverse (a b c d v : ℝ) (hab : b - a ≠ 0) (hcd : d - c ≠ 0) :
    mapRange (mapRange v a b c d) c d a b = v := by
  unfold mapRange
  field_simp
  ring

lemma valueRadians_between (cfg : Cfg) (hm : cfg.min < cfg.max) {v : ℝ}
    (h1 : cfg.min < v) (h2 : v < cfg.max) :
    maxRadians < valueRadians cfg (some v) ∧ valueRadians cfg (some v) < minRadians := by
  have hπ := pi_pos
  have hd : (0 : ℝ) < cfg.max - cfg.min := by linarith
  have hc : maxRadians - minRadians < 0 := by
    simp only [maxRadians, minRadians]; linarith
  have hdne : cfg.max - cfg.min ≠ 0 := ne_of_gt hd
  set q : ℝ := ((v - cfg.min) * (maxRadians - minRadians)) / (cfg.max - cfg.min)
    with hqdef
  have hqc : q * (cfg.max - cfg.min) = (v - cfg.min) * (maxRadians - minRadians) :=
    div_mul_cancel₀ _ hdne
  have hθ : valueRadians cfg (some v) = q + minRadians := by
    rw [hqdef]; rfl
  constructor
  · rw [hθ]
    have : maxRadians - minRadians < q := by
      nlinarith [mul_lt_mul_of_neg_right
        (show v - cfg.min < cfg.max - cfg.min by linarith) hc]
    linarith
  · rw [hθ]
    have : q < 0 := by
      nlinarith [mul_neg_of_pos_of_neg (show (0 : ℝ) < v - cfg.min by linarith) hc]
    linarith

lemma angleFromPoint_pointOnCircle {θ : ℝ} (h1 : -π < θ) (h2 : θ ≤ π) :
    angleFromPoint (pointOnCircle θ).1 (pointOnCircle θ).2 100 = θ := by
  have hx : (pointOnCircle θ).1 - (100 : ℝ) / 2 = 40 * Real.cos θ := by
    simp only [pointOnCircle, midX, radius]; ring
  have hy : (100 : ℝ) / 2 - (pointOnCircle θ).2 = 40 * Real.sin θ := by
    simp only [pointOnCircle, midY, radius]; ring
  unfold angleFromPoint atan2
  rw [hx, hy]
  have hc : ((40 * Real.cos θ : ℝ) : ℂ) + ((40 * Real.sin θ : ℝ) : ℂ) * Complex.I
      = ((40 : ℝ) : ℂ) * (Complex.cos (θ : ℂ) + Complex.sin (θ : ℂ) * Complex.I) := by
    push_cast [Complex.ofReal_cos, Complex.ofReal_sin]
    ring
  rw [hc, Complex.arg_mul_cos_add_sin_mul_I (by norm_num) ⟨h1, h2⟩]

lemma pointOnCircle_sub_two_pi (θ : ℝ) :
    pointOnCircle (θ - 2 * π) = pointOnCircle θ := by
  simp [pointOnCircle, Real.cos_sub_two_pi, Real.sin_sub_two_pi]

/-- C4 (amended): for every `v` strictly between `min` and `max`, the
round trip `v → valueRadians → pointOnCircle → angleFromPoint →
updateModel` recovers the mapped value exactly and commits
`roundToStep v`, which is within half a step of `v` — the claimed law,
but only on the open interval: at the endpoints the recovered angle
lands exactly on a dead-gap boundary and no value is produced (see the
counterexample). -/
theorem roundtrip_interior (cfg : Cfg) (hm : cfg.min < cfg.max)
    (hstep : 0 < cfg.step) {v : ℝ} (hv1 : cfg.min < v) (hv2 : v < cfg.max) :
    updateModel cfg
        (angleFromPoint (pointOnCircle (valueRadians cfg (some v))).1
          (pointOnCircle (valueRadians cfg (some v))).2 100) start
      = some (roundToStep cfg v) ∧
    |roundToStep cfg v - v| ≤ cfg.step / 2 := by
  have hπ := pi_pos
  obtain ⟨hθ1, hθ2⟩ := valueRadians_between cfg hm hv1 hv2
  set θ := valueRadians cfg (some v) with hθdef
  have h43 : θ < 4 * π / 3 := by simpa only [minRadians] using hθ2
  have hmgt : -π / 3 < θ := by simpa only [maxRadians] using hθ1
  have hinv : mapRange θ minRadians maxRadians cfg.min cfg.max = v := by
    rw [hθdef]
    show mapRange (mapRange v cfg.min cfg.max minRadians maxRadians)
        minRadians maxRadians cfg.min cfg.max = v
    exact mapRange_inverse cfg.min cfg.max minRadians maxRadians v
      (by linarith) (by simp only [minRadians, maxRadians]; intro h; nlinarith)
  refine ⟨?_, roundToStep_close cfg hstep v⟩
  by_cases hcase : θ ≤ π
  · rw [angleFromPoint_pointOnCircle (by linarith) hcase]
    have hA : θ > maxRadians := hθ1
    simp [updateModel, valueFromAngle, if_pos hA, hinv]
  · push_neg at hcase
    have hrec : angleFromPoint (pointOnCircle θ).1 (pointOnCircle θ).2 100
        = θ - 2 * π := by
      rw [← pointOnCircle_sub_two_pi θ]
      exact angleFromPoint_pointOnCircle (by linarith) (by linarith)
    rw [hrec]
    have hA : ¬ (θ - 2 * π > maxRadians) :=
      not_lt.mpr (by simp only [maxRadians]; linarith)
    have hB : θ - 2 * π < start := by simp only [start]; linarith
    have hmap : mapRange ((θ - 2 * π) + 2 * π) minRadians maxRadians cfg.min cfg.max
        = v := by
      rw [show (θ - 2 * π) + 2 * π = θ by ring]; exact hinv
    simp [updateModel, valueFromAngle, hA, if_pos hB, hmap, hinv]

/-- Witness for `roundtrip_interior` at the default configuration and the
interior value `80`. -/
theorem roundtrip_interior_witness :
    updateModel enabledCfg
        (angleFromPoint (pointOnCircle (valueRadians enabledCfg (some 80))).1
          (pointOnCircle (valueRadians enabledCfg (some 80))).2 100) start
      = some (roundToStep enabledCfg 80) ∧
    |roundToStep enabledCfg 80 - 80| ≤ enabledCfg.step / 2 :=
  roundtrip_interior enabledCfg (by simp only [enabledCfg]; norm_num)
    (by simp only [enabledCfg]; norm_num)
    (by simp only [enabledCfg]; norm_num)
    (by simp only [enabledCfg]; norm_num)

/-- C4 counterexample: at `v = max` (default configuration, `v = 100`)
the value's angle is exactly `maxRadians = -π/3`; the recovered angle is
again `-π/3`, which satisfies neither `angle > maxRadians` nor
`angle < start`, so the angle-to-value decision lands in the dead gap and
the round trip produces no value at all — the claimed law fails on the
closed interval `[min, max]`. -/
theorem roundtrip_fails_at_max :
    valueRadians enabledCfg (some 100) = maxRadians ∧
    updateModel enabledCfg
        (angleFromPoint (pointOnCircle (valueRadians enabledCfg (some 100))).1
          (pointOnCircle (valueRadians enabledCfg (some 100))).2 100) start
      = none := by
  have hπ := pi_pos
  have hval : valueRadians enabledCfg (some 100) = maxRadians := by
    simp only [valueRadians, _value, Option.getD_some, enabledCfg, mapRange,
      minRadians, maxRadians]
    field_simp
    ring
  refine ⟨hval, ?_⟩
  rw [hval,
    angleFromPoint_pointOnCircle (by simp only [maxRadians]; linarith)
      (by simp only [maxRadians]; linarith)]
  have hA : ¬ (maxRadians > maxRadians) := lt_irrefl _
  have hB : ¬ (maxRadians < start) :=
    not_lt.mpr (by simp only [maxRadians, start]; linarith)
  simp [updateModel, valueFromAngle, hA, hB]

end Knob
